import Mathlib

/-!
# Verification of the SU2 finite-element kernel (`element_structure.hpp`)
and the nucleation-model class structure (`nucleation_model.hpp`).

The repository ships only the two headers; the method bodies live in
`element_structure.cpp` / `.inl` and `nucleation_model.inl`, which are not
part of the source tree.  Where a claim depends on such a body, the
definition below is modelled from the specification (its doc comment says
so); the headers themselves (declarations, virtual-ness, data members) are
embedded directly.

Both concrete element types (3-node triangle `CTRIA1`, 4-node quadrilateral
`CQUAD4`) are planar, so the spatial dimension `nDim` is fixed to 2
throughout.  The C++ `double` scalars are modelled exactly in the field
`ℚ[√3]` (`Q3` below): the quadrilateral's Gauss-point parent coordinates are
`±1/√3`, so plain rationals do not suffice, while `ℚ[√3]` keeps every
definition computable.
-/

/-- The quadratic field `ℚ[√3]`: `⟨a, b⟩` represents `a + b·√3`.
Scalars of the element kernel (coordinates, weights, gradients, stiffness
entries) live here; `toReal` below gives the intended real value. -/
structure Q3 where
  a : ℚ
  b : ℚ
deriving DecidableEq, Repr

namespace Q3

theorem eq2 : ∀ {x y : Q3}, x.a = y.a → x.b = y.b → x = y
  | ⟨_, _⟩, ⟨_, _⟩, rfl, rfl => rfl

instance : Zero Q3 := ⟨⟨0, 0⟩⟩

instance : One Q3 := ⟨⟨1, 0⟩⟩

instance : Add Q3 := ⟨fun x y => ⟨x.a + y.a, x.b + y.b⟩⟩

instance : Neg Q3 := ⟨fun x => ⟨-x.a, -x.b⟩⟩

instance : Sub Q3 := ⟨fun x y => ⟨x.a - y.a, x.b - y.b⟩⟩

instance : Mul Q3 := ⟨fun x y => ⟨x.a * y.a + 3 * x.b * y.b, x.a * y.b + x.b * y.a⟩⟩

instance : Inv Q3 :=
  ⟨fun x => ⟨x.a / (x.a ^ 2 - 3 * x.b ^ 2), -x.b / (x.a ^ 2 - 3 * x.b ^ 2)⟩⟩

instance : Div Q3 := ⟨fun x y => x * y⁻¹⟩

theorem zero_def : (0 : Q3) = ⟨0, 0⟩ := rfl

theorem one_def : (1 : Q3) = ⟨1, 0⟩ := rfl

theorem add_def (x y : Q3) : x + y = ⟨x.a + y.a, x.b + y.b⟩ := rfl

theorem neg_def (x : Q3) : -x = ⟨-x.a, -x.b⟩ := rfl

theorem sub_def (x y : Q3) : x - y = ⟨x.a - y.a, x.b - y.b⟩ := rfl

theorem mul_def (x y : Q3) :
    x * y = ⟨x.a * y.a + 3 * x.b * y.b, x.a * y.b + x.b * y.a⟩ := rfl

theorem inv_def (x : Q3) :
    x⁻¹ = ⟨x.a / (x.a ^ 2 - 3 * x.b ^ 2), -x.b / (x.a ^ 2 - 3 * x.b ^ 2)⟩ := rfl

instance : CommRing Q3 where
  nsmul := nsmulRec
  zsmul := zsmulRec
  add_assoc x y z := by apply eq2 <;> simp [add_def] <;> ring
  zero_add x := by apply eq2 <;> simp [add_def, zero_def]
  add_zero x := by apply eq2 <;> simp [add_def, zero_def]
  add_comm x y := by apply eq2 <;> simp [add_def] <;> ring
  neg_add_cancel x := by apply eq2 <;> simp [add_def, neg_def, zero_def]
  sub_eq_add_neg x y := by apply eq2 <;> simp [sub_def, add_def, neg_def] <;> ring
  left_distrib x y z := by apply eq2 <;> simp [mul_def, add_def] <;> ring
  right_distrib x y z := by apply eq2 <;> simp [mul_def, add_def] <;> ring
  zero_mul x := by apply eq2 <;> simp [mul_def, zero_def]
  mul_zero x := by apply eq2 <;> simp [mul_def, zero_def]
  mul_assoc x y z := by apply eq2 <;> simp [mul_def] <;> ring
  one_mul x := by apply eq2 <;> simp [mul_def, one_def]
  mul_one x := by apply eq2 <;> simp [mul_def, one_def]
  mul_comm x y := by apply eq2 <;> simp [mul_def] <;> ring

/-- Over `ℚ` the equation `a² = 3·b²` forces `a = b = 0` (irrationality
of `√3`); this is what makes `Q3` a field. -/
theorem sq_eq_three_sq {x y : ℚ} (h : x ^ 2 = 3 * y ^ 2) : x = 0 ∧ y = 0 := by
  by_cases hy : y = 0
  · subst hy
    have hx : x ^ 2 = 0 := by simpa using h
    exact ⟨by nlinarith [sq_nonneg x], rfl⟩
  · exfalso
    have h3 : Irrational (Real.sqrt 3) := Nat.prime_three.irrational_sqrt
    have hq : ((x / y : ℚ) : ℝ) ^ 2 = 3 := by
      push_cast
      rw [div_pow]
      rw [div_eq_iff (by positivity)]
      exact_mod_cast h
    have hs : ((|x / y| : ℚ) : ℝ) = Real.sqrt 3 := by
      rw [← hq, Real.sqrt_sq_eq_abs]
      push_cast
      rfl
    exact h3 ⟨|x / y|, hs⟩

instance : Field Q3 where
  exists_pair_ne := ⟨0, 1, by decide⟩
  inv_zero := by apply eq2 <;> simp [inv_def, zero_def]
  mul_inv_cancel x hx := by
    have hd : x.a ^ 2 - 3 * x.b ^ 2 ≠ 0 := by
      intro h0
      have h1 := sq_eq_three_sq (x := x.a) (y := x.b) (by linarith)
      exact hx (by apply eq2 <;> simp [zero_def, h1.1, h1.2])
    apply eq2 <;> simp only [mul_def, inv_def, one_def, zero_def] <;>
      field_simp <;> ring
  qsmul := _
  nnqsmul := _

/-- The real number represented by an element of `Q3`. -/
noncomputable def toReal (x : Q3) : ℝ := x.a + x.b * Real.sqrt 3

/-- Computable strict-positivity test on `Q3`; `posb_iff` below shows it
decides `0 < toReal x`, i.e. the C++ comparison `det > 0` on exact values. -/
def posb (x : Q3) : Bool :=
  if 0 < x.b then (if 0 ≤ x.a then true else decide (x.a ^ 2 < 3 * x.b ^ 2))
  else if x.b = 0 then decide (0 < x.a)
  else (if 0 < x.a then decide (3 * x.b ^ 2 < x.a ^ 2) else false)

theorem posb_iff (x : Q3) : posb x = true ↔ 0 < x.toReal := by
  have h3pos : (0 : ℝ) < Real.sqrt 3 := Real.sqrt_pos.mpr (by norm_num)
  have s3 : Real.sqrt 3 * Real.sqrt 3 = 3 := Real.mul_self_sqrt (by norm_num)
  unfold posb toReal
  split_ifs with hb ha hb0 ha'
  · simp only [true_iff]
    have hB : (0 : ℝ) < (x.b : ℝ) * Real.sqrt 3 :=
      mul_pos (by exact_mod_cast hb) h3pos
    have hA : (0 : ℝ) ≤ (x.a : ℝ) := by exact_mod_cast ha
    linarith
  · rw [decide_eq_true_eq]
    have hA : (x.a : ℝ) < 0 := by exact_mod_cast not_le.mp ha
    have hB : (0 : ℝ) < (x.b : ℝ) := by exact_mod_cast hb
    constructor
    · intro h
      have hQ : ((x.a : ℝ)) ^ 2 < 3 * ((x.b : ℝ)) ^ 2 := by exact_mod_cast h
      by_contra hc
      push_neg at hc
      have h1 : (x.b : ℝ) * Real.sqrt 3 ≤ -(x.a : ℝ) := by linarith
      have h2 : ((x.b : ℝ) * Real.sqrt 3) * ((x.b : ℝ) * Real.sqrt 3) ≤
          (-(x.a : ℝ)) * (-(x.a : ℝ)) :=
        mul_self_le_mul_self (le_of_lt (mul_pos hB h3pos)) h1
      nlinarith
    · intro h
      have h1 : -(x.a : ℝ) < (x.b : ℝ) * Real.sqrt 3 := by linarith
      have h2 : (-(x.a : ℝ)) * (-(x.a : ℝ)) <
          ((x.b : ℝ) * Real.sqrt 3) * ((x.b : ℝ) * Real.sqrt 3) :=
        mul_self_lt_mul_self (by linarith) h1
      have hQ : ((x.a : ℝ)) ^ 2 < 3 * ((x.b : ℝ)) ^ 2 := by nlinarith
      exact_mod_cast hQ
  · rw [decide_eq_true_eq, hb0]
    simp only [Rat.cast_zero, zero_mul, add_zero]
    exact_mod_cast Iff.rfl
  · rw [decide_eq_true_eq]
    have hA : (0 : ℝ) < (x.a : ℝ) := by exact_mod_cast ha'
    have hB : (x.b : ℝ) < 0 := by
      exact_mod_cast lt_of_le_of_ne (not_lt.mp hb) hb0
    constructor
    · intro h
      have hQ : 3 * ((x.b : ℝ)) ^ 2 < ((x.a : ℝ)) ^ 2 := by exact_mod_cast h
      by_contra hc
      push_neg at hc
      have h1 : (x.a : ℝ) ≤ -((x.b : ℝ)) * Real.sqrt 3 := by nlinarith
      have h2 : (x.a : ℝ) * (x.a : ℝ) ≤
          (-((x.b : ℝ)) * Real.sqrt 3) * (-((x.b : ℝ)) * Real.sqrt 3) :=
        mul_self_le_mul_self (by linarith) h1
      nlinarith
    · intro h
      have h1 : -((x.b : ℝ)) * Real.sqrt 3 < (x.a : ℝ) := by nlinarith
      have h2 : (-((x.b : ℝ)) * Real.sqrt 3) * (-((x.b : ℝ)) * Real.sqrt 3) <
          (x.a : ℝ) * (x.a : ℝ) :=
        mul_self_lt_mul_self (mul_nonneg (by linarith) (le_of_lt h3pos)) h1
      have hQ : 3 * ((x.b : ℝ)) ^ 2 < ((x.a : ℝ)) ^ 2 := by nlinarith
      exact_mod_cast hQ
  · simp only [false_iff, not_lt]
    have hA : (x.a : ℝ) ≤ 0 := by exact_mod_cast not_lt.mp ha'
    have hB : (x.b : ℝ) < 0 := by
      exact_mod_cast lt_of_le_of_ne (not_lt.mp hb) hb0
    nlinarith

end Q3

/-- `2 × 2` matrices over `Q3` (the `nDim × nDim` Jacobian and stiffness
sub-blocks, with `nDim = 2`). -/
def Mat2 : Type := Fin 2 → Fin 2 → Q3

/-- 2-vectors over `Q3`. -/
def Vec2 : Type := Fin 2 → Q3

/-- Determinant of a `2 × 2` matrix, the closed form `ad - bc` used by the
element kernel. -/
def det2 (M : Mat2) : Q3 := M 0 0 * M 1 1 - M 0 1 * M 1 0

/-- Matrix transpose. -/
def transpose2 (M : Mat2) : Mat2 := fun i j => M j i

/-- Matrix product. -/
def mul2 (A B : Mat2) : Mat2 := fun i j => A i 0 * B 0 j + A i 1 * B 1 j

/-- Matrix–vector product. -/
def mulVec2 (A : Mat2) (v : Vec2) : Vec2 := fun i => A i 0 * v 0 + A i 1 * v 1

/-- Identity matrix. -/
def id2 : Mat2 := fun i j => if i = j then 1 else 0

/-- Closed-form inverse of a `2 × 2` matrix (adjugate over determinant),
as prescribed by the spec for the Jacobian inversion step. -/
def inv2 (M : Mat2) : Mat2 := fun i j =>
  (![![M 1 1, -(M 0 1)], ![-(M 1 0), M 0 0]] : Fin 2 → Fin 2 → Q3) i j / det2 M

/-- `inv2` really inverts: when the determinant is nonzero,
`M * inv2 M = 1`. -/
theorem mul2_inv2 (M : Mat2) (h : det2 M ≠ 0) : mul2 M (inv2 M) = id2 := by
  have h' : M 0 0 * M 1 1 - M 0 1 * M 1 0 ≠ 0 := h
  funext i j
  fin_cases i <;> fin_cases j <;>
    simp [mul2, inv2, id2, det2, Fin.isValue] <;>
    field_simp <;> ring

/-- `inv2` is also a left inverse. -/
theorem inv2_mul2 (M : Mat2) (h : det2 M ≠ 0) : mul2 (inv2 M) M = id2 := by
  have h' : M 0 0 * M 1 1 - M 0 1 * M 1 0 ≠ 0 := h
  funext i j
  fin_cases i <;> fin_cases j <;>
    simp [mul2, inv2, id2, det2, Fin.isValue] <;>
    field_simp <;> ring

/-- State of one element object, mirroring the data members of `CElement`
(`element_structure.hpp`, lines 56–65): `RefCoord`, `CurrentCoord`,
`GaussCoord`, `GaussWeight`, the per-Gauss-point variables (shape-function
gradients `GradNi_X` and Jacobian determinant `J_X`, held in C++ by the
`CGaussVariable` objects), and the stiffness block store `Kab`.
`n` is the node count, `nG` the Gauss-point count; `nDim = 2`. -/
structure ElemState (n nG : ℕ) where
  refCoord : Fin n → Fin 2 → Q3
  currCoord : Fin n → Fin 2 → Q3
  gaussCoord : Fin nG → Fin 2 → Q3
  gaussWeight : Fin nG → Q3
  gradNi_X : Fin n → Fin nG → Fin 2 → Q3
  jX : Fin nG → Q3
  kab : Fin n → Fin n → Fin 2 → Fin 2 → Q3

namespace ElemState

variable {n nG : ℕ}

/-- Modelled from the spec: `SetRef_Coord` writes one scalar reference
coordinate (body in the missing `element_structure.cpp`). -/
def SetRef_Coord (e : ElemState n nG) (v : Q3) (iNode : Fin n) (iDim : Fin 2) :
    ElemState n nG :=
  { e with refCoord := fun a d => if a = iNode ∧ d = iDim then v else e.refCoord a d }

/-- Modelled from the spec: `SetCurr_Coord` writes one scalar current
coordinate (body in the missing `element_structure.cpp`). -/
def SetCurr_Coord (e : ElemState n nG) (v : Q3) (iNode : Fin n) (iDim : Fin 2) :
    ElemState n nG :=
  { e with currCoord := fun a d => if a = iNode ∧ d = iDim then v else e.currCoord a d }

/-- Modelled from the spec: `GetRef_Coord` reads back a coordinate. -/
def GetRef_Coord (e : ElemState n nG) (iNode : Fin n) (iDim : Fin 2) : Q3 :=
  e.refCoord iNode iDim

/-- Modelled from the spec: `GetCurr_Coord` reads back a coordinate. -/
def GetCurr_Coord (e : ElemState n nG) (iNode : Fin n) (iDim : Fin 2) : Q3 :=
  e.currCoord iNode iDim

/-- Modelled from the spec: `GetWeight` returns the fixed integration
weight of a Gauss point. -/
def GetWeight (e : ElemState n nG) (iGauss : Fin nG) : Q3 :=
  e.gaussWeight iGauss

/-- Modelled from the spec: `GetJ_X` returns the stored Jacobian
determinant for a Gauss point. -/
def GetJ_X (e : ElemState n nG) (iGauss : Fin nG) : Q3 :=
  e.jX iGauss

/-- Modelled from the spec: `GetGradNi_X` returns one component of the
stored shape-function gradient. -/
def GetGradNi_X (e : ElemState n nG) (iNode : Fin n) (iGauss : Fin nG)
    (iDim : Fin 2) : Q3 :=
  e.gradNi_X iNode iGauss iDim

/-- Modelled from the spec: `Get_Kab` returns the accumulated `nDim × nDim`
sub-matrix for the node pair (the C++ code returns it flattened). -/
def Get_Kab (e : ElemState n nG) (nodeA nodeB : Fin n) : Mat2 :=
  e.kab nodeA nodeB

/-- Modelled from the spec: `Add_Kab` accumulates (sums in place) a
sub-matrix into the block for the node pair `(nodeA, nodeB)`. -/
def Add_Kab (e : ElemState n nG) (M : Mat2) (nodeA nodeB : Fin n) :
    ElemState n nG :=
  { e with kab := fun a b i j =>
      if a = nodeA ∧ b = nodeB then e.kab a b i j + M i j else e.kab a b i j }

/-- Modelled from the spec: `Add_Kab_T` accumulates the transpose of the
supplied sub-matrix into the block for `(nodeA, nodeB)`. -/
def Add_Kab_T (e : ElemState n nG) (M : Mat2) (nodeA nodeB : Fin n) :
    ElemState n nG :=
  { e with kab := fun a b i j =>
      if a = nodeA ∧ b = nodeB then e.kab a b i j + M j i else e.kab a b i j }

/-- Modelled from the spec: `clearElement` zeroes every accumulated
stiffness block and touches nothing else. -/
def clearElement (e : ElemState n nG) : ElemState n nG :=
  { e with kab := fun _ _ _ _ => 0 }

end ElemState

/-- The `nDim × nDim` Jacobian of the isoparametric mapping at one Gauss
point: `J = Σ_node coord[node] ⊗ ∂N_node/∂ξ`, i.e.
`J i j = Σ_node coord node i * dN node j` (spec §4.3 step 1). -/
def jacobianM {n : ℕ} (coord : Fin n → Fin 2 → Q3) (dN : Fin n → Fin 2 → Q3) :
    Mat2 :=
  fun i j => ∑ node : Fin n, coord node i * dN node j

/-- Modelled from the spec (§4.3, bodies in the missing
`element_structure.cpp`): the common gradient computation.  For each Gauss
point it builds the Jacobian from the chosen coordinate set, fails
(returns `none`) if any determinant fails the positivity test, and
otherwise stores the determinant and the physical gradients
`J⁻ᵀ · ∂N/∂ξ` in the per-Gauss-point state.  `dN` is the concrete type's
table of parent-space shape-function gradients at each Gauss point. -/
def computeGrad {n nG : ℕ} (dN : Fin nG → Fin n → Fin 2 → Q3)
    (coord : Fin n → Fin 2 → Q3) (e : ElemState n nG) :
    Option (ElemState n nG) :=
  if ∀ g : Fin nG, (det2 (jacobianM coord (dN g))).posb
  then some
    { e with
      gradNi_X := fun node g d =>
        mulVec2 (transpose2 (inv2 (jacobianM coord (dN g)))) (dN g node) d
      jX := fun g => det2 (jacobianM coord (dN g)) }
  else none

/-- Modelled from the spec: `ComputeGrad_Linear` runs the common algorithm
on the reference coordinates. -/
def ComputeGrad_Linear {n nG : ℕ} (dN : Fin nG → Fin n → Fin 2 → Q3)
    (e : ElemState n nG) : Option (ElemState n nG) :=
  computeGrad dN e.refCoord e

/-- Modelled from the spec: `ComputeGrad_NonLinear` runs the identical
algorithm on the current coordinates. -/
def ComputeGrad_NonLinear {n nG : ℕ} (dN : Fin nG → Fin n → Fin 2 → Q3)
    (e : ElemState n nG) : Option (ElemState n nG) :=
  computeGrad dN e.currCoord e

/-- Modelled from the spec: shape functions of `CTRIA1`, the standard
barycentric linear functions `N = (1-ξ-η, ξ, η)` (tables live in the
missing `element_structure.cpp`). -/
def tria1_shape (j : Fin 3) (x : Fin 2 → Q3) : Q3 :=
  (![1 - x 0 - x 1, x 0, x 1] : Fin 3 → Q3) j

/-- Modelled from the spec: parent-space gradients of the `CTRIA1` shape
functions; they are affine, so the gradients are constant. -/
def tria1_dShape (j : Fin 3) (_x : Fin 2 → Q3) : Fin 2 → Q3 :=
  (![![-1, -1], ![1, 0], ![0, 1]] : Fin 3 → Fin 2 → Q3) j

/-- Modelled from the spec: the single `CTRIA1` Gauss point sits at the
parent-simplex centroid `(1/3, 1/3)`. -/
def tria1_gaussCoord : Fin 1 → Fin 2 → Q3 :=
  fun _ => (![⟨1/3, 0⟩, ⟨1/3, 0⟩] : Fin 2 → Q3)

/-- Modelled from the spec: the `CTRIA1` weight equals the parent-element
area `1/2`. -/
def tria1_gaussWeight : Fin 1 → Q3 := fun _ => ⟨1/2, 0⟩

/-- The `CTRIA1` table of parent-space shape-function gradients at each
Gauss point (`GPi_dNj_dxik`). -/
def tria1_dN : Fin 1 → Fin 3 → Fin 2 → Q3 :=
  fun g j => tria1_dShape j (tria1_gaussCoord g)

/-- Parent coordinates of the four `CQUAD4` nodes,
`(-1,-1), (1,-1), (1,1), (-1,1)`. -/
def quad4_nodeXi : Fin 4 → Fin 2 → Q3 :=
  ![![-1, -1], ![1, -1], ![1, 1], ![-1, 1]]

/-- Modelled from the spec: bilinear shape functions of `CQUAD4`,
`N_j(ξ,η) = (1 + ξ_j ξ)(1 + η_j η)/4`. -/
def quad4_shape (j : Fin 4) (x : Fin 2 → Q3) : Q3 :=
  (1 + quad4_nodeXi j 0 * x 0) * (1 + quad4_nodeXi j 1 * x 1) / 4

/-- Modelled from the spec: parent-space gradients of the `CQUAD4` shape
functions. -/
def quad4_dShape (j : Fin 4) (x : Fin 2 → Q3) : Fin 2 → Q3 :=
  ![quad4_nodeXi j 0 * (1 + quad4_nodeXi j 1 * x 1) / 4,
    quad4_nodeXi j 1 * (1 + quad4_nodeXi j 0 * x 0) / 4]

/-- `1/√3` as an element of `Q3` (it is `(1/3)·√3`). -/
def invSqrt3 : Q3 := ⟨0, 1/3⟩

/-- Modelled from the spec: the four `CQUAD4` Gauss points sit at parent
coordinates `(±1/√3, ±1/√3)`. -/
def quad4_gaussCoord : Fin 4 → Fin 2 → Q3 :=
  ![![-invSqrt3, -invSqrt3], ![invSqrt3, -invSqrt3],
    ![invSqrt3, invSqrt3], ![-invSqrt3, invSqrt3]]

/-- Modelled from the spec: every `CQUAD4` weight equals `1`. -/
def quad4_gaussWeight : Fin 4 → Q3 := fun _ => 1

/-- The `CQUAD4` table of parent-space shape-function gradients at each
Gauss point (`GPi_dNj_dxik`). -/
def quad4_dN : Fin 4 → Fin 4 → Fin 2 → Q3 :=
  fun g j => quad4_dShape j (quad4_gaussCoord g)

/-- Modelled from the spec: a freshly constructed `CTRIA1` — the
constructor installs the fixed quadrature table and zero-initialises the
mutable state. -/
def mkTria1 : ElemState 3 1 where
  refCoord := fun _ _ => 0
  currCoord := fun _ _ => 0
  gaussCoord := tria1_gaussCoord
  gaussWeight := tria1_gaussWeight
  gradNi_X := fun _ _ _ => 0
  jX := fun _ => 0
  kab := fun _ _ _ _ => 0

/-- Modelled from the spec: a freshly constructed `CQUAD4`. -/
def mkQuad4 : ElemState 4 4 where
  refCoord := fun _ _ => 0
  currCoord := fun _ _ => 0
  gaussCoord := quad4_gaussCoord
  gaussWeight := quad4_gaussWeight
  gradNi_X := fun _ _ _ => 0
  jX := fun _ => 0
  kab := fun _ _ _ _ => 0

/-- One stiffness-accumulation call: either `Add_Kab` or `Add_Kab_T`, with
its sub-matrix and node pair. -/
inductive KCall (n : ℕ) where
  | add (M : Mat2) (nodeA nodeB : Fin n)
  | addT (M : Mat2) (nodeA nodeB : Fin n)

/-- Apply one accumulation call to an element state. -/
def applyKCall {n nG : ℕ} (e : ElemState n nG) : KCall n → ElemState n nG
  | .add M a b => e.Add_Kab M a b
  | .addT M a b => e.Add_Kab_T M a b

/-- Apply a sequence of accumulation calls, first element first. -/
def applyKCalls {n nG : ℕ} (e : ElemState n nG) : List (KCall n) → ElemState n nG
  | [] => e
  | c :: cs => applyKCalls (applyKCall e c) cs

/-- The mirrored call: the registration the caller makes for the symmetric
partner block, `Add_Kab M a b ↔ Add_Kab_T M b a`. -/
def KCall.mirror {n : ℕ} : KCall n → KCall n
  | .add M a b => .addT M b a
  | .addT M a b => .add M b a

/-- The contribution of one call to entry `(i, j)` of block `(a, b)`. -/
def KCall.delta {n : ℕ} (c : KCall n) (a b : Fin n) (i j : Fin 2) : Q3 :=
  match c with
  | .add M a' b' => if a = a' ∧ b = b' then M i j else 0
  | .addT M a' b' => if a = a' ∧ b = b' then M j i else 0

/-- A `CTRIA1` with reference nodes `(0,0), (1,0), (0,1)` (the spec's
right-isoceles example), loaded through `SetRef_Coord`. -/
def triaEx : ElemState 3 1 :=
  ((mkTria1.SetRef_Coord 1 1 0).SetRef_Coord 1 2 1)

/-- The state produced by `ComputeGrad_Linear` on `triaEx` (the default is
irrelevant: the computation succeeds). -/
def triaExOut : ElemState 3 1 :=
  (ComputeGrad_Linear tria1_dN triaEx).getD mkTria1

/-- `triaEx` with current coordinates set equal to its reference
coordinates. -/
def triaExC : ElemState 3 1 :=
  ((triaEx.SetCurr_Coord 1 1 0).SetCurr_Coord 1 2 1)

/-- A degenerate `CTRIA1`: reference nodes `(0,0), (1,0), (2,0)` are
collinear, so the Jacobian determinant vanishes. -/
def triaDegen : ElemState 3 1 :=
  ((mkTria1.SetRef_Coord 1 1 0).SetRef_Coord 2 2 0)

/-- A unit-square `CQUAD4` with reference nodes
`(0,0), (1,0), (1,1), (0,1)`. -/
def quadEx : ElemState 4 4 :=
  ((((mkQuad4.SetRef_Coord 1 1 0).SetRef_Coord 1 2 0).SetRef_Coord 1 2 1).SetRef_Coord 1 3 1)

/-- The state produced by `ComputeGrad_Linear` on `quadEx`. -/
def quadExOut : ElemState 4 4 :=
  (ComputeGrad_Linear quad4_dN quadEx).getD mkQuad4

/-- The sub-matrix `[[1, 0], [0, 0]]`, a non-symmetric test contribution. -/
def oneMat : Mat2 := fun i j => if i = 0 ∧ j = 0 then 1 else 0

/-- The three classes of `element_structure.hpp`. -/
inductive CppClass where
  | celement
  | ctria1
  | cquad4
deriving DecidableEq, Fintype

/-- The methods relevant to dispatch, as declared in the header. -/
inductive CMethod where
  | getGradNi_X
  | getnNodes
  | getnGaussPoints
  | computeGrad_Linear
  | computeGrad_NonLinear
  | outputGradN_X
deriving DecidableEq, Fintype

/-- Base-class relation from the header: `CTRIA1` and `CQUAD4` derive
publicly from `CElement` (lines 211, 294). -/
def parentOf : CppClass → Option CppClass
  | .celement => none
  | .ctria1 => some .celement
  | .cquad4 => some .celement

/-- Which class declares which method.  From the header each of the three
classes declares all six (CElement lines 167–200, CTRIA1 lines 248–282,
CQUAD4 lines 331–365). -/
def declares : CppClass → CMethod → Bool := fun _ _ => true

/-- Which declarations carry the `virtual` keyword in the header: only
`ComputeGrad_Linear` (line 167), `ComputeGrad_NonLinear` (line 174) and
`OutputGradN_X` (line 200) in `CElement`.  In particular `GetGradNi_X`
(line 182), `GetnNodes` (line 188) and `GetnGaussPoints` (line 194) are
non-virtual, and the derived redeclarations carry no `virtual` either. -/
def declaredVirtual : CppClass → CMethod → Bool
  | .celement, .computeGrad_Linear => true
  | .celement, .computeGrad_NonLinear => true
  | .celement, .outputGradN_X => true
  | _, _ => false

/-- C++ rule: a member function is virtual if its declaration, or the one
it overrides in any ancestor, is marked `virtual`. -/
def isVirtual (c : CppClass) (m : CMethod) : Bool :=
  match c with
  | .celement => declaredVirtual .celement m
  | .ctria1 => declaredVirtual .ctria1 m || declaredVirtual .celement m
  | .cquad4 => declaredVirtual .cquad4 m || declaredVirtual .celement m

/-- Name lookup from a static type: the innermost class (the type itself
or its nearest ancestor) declaring the method. -/
def lookupFrom (c : CppClass) (m : CMethod) : CppClass :=
  match c with
  | .celement => .celement
  | .ctria1 => if declares .ctria1 m then .ctria1 else .celement
  | .cquad4 => if declares .cquad4 m then .cquad4 else .celement

/-- C++ call semantics: a call through static type `S` on an object of
dynamic type `D` executes the final overrider in `D` when the looked-up
declaration is virtual, and the statically looked-up implementation
otherwise.  The result names the class whose body runs. -/
def dispatch (S D : CppClass) (m : CMethod) : CppClass :=
  if isVirtual (lookupFrom S m) m then lookupFrom D m else lookupFrom S m

/-- State of the base class `CNucleationModel`
(`nucleation_model.hpp` lines 59–92): its `protected:` section is empty —
the class declares no data members at all. -/
structure CNucleationModelState where

/-- State of the derived class `CClassicalTheory`
(`nucleation_model.hpp` lines 99–125): the base subobject plus the fields
of lines 102–105 — in particular the nucleation rate `J` and growth rate
`G` are declared here, not in the base.  `su2double`/`double` scalars are
modelled as `ℚ`. -/
structure CClassicalTheoryState where
  toCNucleationModelState : CNucleationModelState
  Theta : ℚ
  J : ℚ
  G : ℚ
  Lambda : ℚ
  Ni : ℚ
  Pr : ℚ
  Gamma : ℚ
  Gas_Constant : ℚ
  Boltzmann : ℚ
  MolMass : ℚ

theorem Q3.toReal_zero : (0 : Q3).toReal = 0 := by
  rw [Q3.zero_def]
  simp [Q3.toReal]

theorem Q3.posb_ne_zero {x : Q3} (h : x.posb = true) : x ≠ 0 := by
  intro h0
  subst h0
  exact absurd h (by decide)

theorem applyKCall_kab {n nG : ℕ} (e : ElemState n nG) (c : KCall n)
    (a b : Fin n) (i j : Fin 2) :
    (applyKCall e c).kab a b i j = e.kab a b i j + c.delta a b i j := by
  cases c <;>
    simp only [applyKCall, ElemState.Add_Kab, ElemState.Add_Kab_T, KCall.delta] <;>
    split_ifs <;> simp

theorem applyKCalls_kab {n nG : ℕ} (s : List (KCall n)) (e : ElemState n nG)
    (a b : Fin n) (i j : Fin 2) :
    (applyKCalls e s).kab a b i j =
      e.kab a b i j + (s.map (fun c => c.delta a b i j)).sum := by
  induction s generalizing e with
  | nil => simp [applyKCalls]
  | cons c cs ih =>
    simp only [applyKCalls, List.map_cons, List.sum_cons]
    rw [ih, applyKCall_kab]
    ring

theorem mirror_delta {n : ℕ} (c : KCall n) (a b : Fin n) (i j : Fin 2) :
    (KCall.mirror c).delta a b i j = c.delta b a j i := by
  cases c <;> simp only [KCall.mirror, KCall.delta] <;>
    exact if_congr and_comm rfl rfl

theorem applyKCalls_refCoord {n nG : ℕ} (s : List (KCall n)) (e : ElemState n nG) :
    (applyKCalls e s).refCoord = e.refCoord := by
  induction s generalizing e with
  | nil => rfl
  | cons c cs ih =>
    rw [applyKCalls, ih]
    cases c <;> rfl

/-- `computeGrad` fails exactly when some Gauss-point determinant fails
the positivity test. -/
theorem computeGrad_none_iff {n nG : ℕ} (dN : Fin nG → Fin n → Fin 2 → Q3)
    (coord : Fin n → Fin 2 → Q3) (e : ElemState n nG) :
    computeGrad dN coord e = none ↔
      ∃ g : Fin nG, ¬ (det2 (jacobianM coord (dN g))).posb = true := by
  unfold computeGrad
  split_ifs with hc
  · simp only [reduceCtorEq, false_iff]
    push_neg
    exact hc
  · simp only [true_iff]
    push_neg at hc
    exact hc

/-- On success, `computeGrad` returns exactly the input state with the
per-Gauss-point gradients and determinants overwritten by the algorithm's
results. -/
theorem computeGrad_some {n nG : ℕ} (dN : Fin nG → Fin n → Fin 2 → Q3)
    (coord : Fin n → Fin 2 → Q3) (e e' : ElemState n nG)
    (h : computeGrad dN coord e = some e') :
    (∀ g : Fin nG, (det2 (jacobianM coord (dN g))).posb = true) ∧
    e' = { e with
      gradNi_X := fun node g d =>
        mulVec2 (transpose2 (inv2 (jacobianM coord (dN g)))) (dN g node) d
      jX := fun g => det2 (jacobianM coord (dN g)) } := by
  unfold computeGrad at h
  split_ifs at h with hc
  · exact ⟨hc, (Option.some_inj.mp h).symm⟩

/-- If, at each Gauss point, the parent-space gradients summed over the
nodes vanish, then the stored physical-space gradients after a successful
`computeGrad` also sum to zero (linearity of `J⁻ᵀ ·`). -/
theorem computeGrad_grad_sum_zero {n nG : ℕ}
    (dN : Fin nG → Fin n → Fin 2 → Q3) (coord : Fin n → Fin 2 → Q3)
    (e e' : ElemState n nG) (h : computeGrad dN coord e = some e')
    (hz : ∀ (g : Fin nG) (d : Fin 2), ∑ node : Fin n, dN g node d = 0)
    (g : Fin nG) (d : Fin 2) :
    ∑ node : Fin n, e'.GetGradNi_X node g d = 0 := by
  obtain ⟨-, rfl⟩ := computeGrad_some dN coord e e' h
  simp only [ElemState.GetGradNi_X, mulVec2]
  rw [Finset.sum_add_distrib, ← Finset.mul_sum, ← Finset.mul_sum, hz, hz]
  ring

instance : Subsingleton CNucleationModelState :=
  ⟨fun s t => by cases s; cases t; rfl⟩

/-- Claim C1: for every element with reference coordinates populated, a
successful `ComputeGrad_Linear` builds, at each Gauss point, the
`nDim × nDim` Jacobian as the sum over local nodes of the outer product of
the node's reference coordinate with its parent-space shape-function
gradient, stores its determinant (readable through `GetJ_X`), genuinely
inverts it, and stores the physical gradient `J⁻ᵀ · ∂N/∂ξ` for every node
(readable through `GetGradNi_X`). -/
theorem claim_C1 {n nG : ℕ} (dN : Fin nG → Fin n → Fin 2 → Q3)
    (e e' : ElemState n nG) (h : ComputeGrad_Linear dN e = some e')
    (g : Fin nG) :
    e'.GetJ_X g = det2 (jacobianM e.refCoord (dN g)) ∧
    (∀ i j : Fin 2, jacobianM e.refCoord (dN g) i j =
      ∑ node : Fin n, e.refCoord node i * dN g node j) ∧
    mul2 (jacobianM e.refCoord (dN g)) (inv2 (jacobianM e.refCoord (dN g))) = id2 ∧
    (∀ (node : Fin n) (d : Fin 2), e'.GetGradNi_X node g d =
      mulVec2 (transpose2 (inv2 (jacobianM e.refCoord (dN g)))) (dN g node) d) := by
  obtain ⟨hpos, rfl⟩ := computeGrad_some dN e.refCoord e e' h
  exact ⟨rfl, fun i j => rfl,
    mul2_inv2 _ (Q3.posb_ne_zero (hpos g)), fun node d => rfl⟩

/-- Witness for C1: the right-isoceles `CTRIA1` with reference nodes
`(0,0), (1,0), (0,1)`. -/
theorem claim_C1_witness :
    ComputeGrad_Linear tria1_dN triaEx = some triaExOut ∧
    triaExOut.GetJ_X 0 = det2 (jacobianM triaEx.refCoord (tria1_dN 0)) := by
  have h : ComputeGrad_Linear tria1_dN triaEx = some triaExOut := by
    with_unfolding_all rfl
  exact ⟨h, (claim_C1 tria1_dN triaEx triaExOut h 0).1⟩

/-- Claim C2: the gradient computations fail (produce no result) exactly
when some Gauss-point Jacobian determinant is `≤ 0`; on success every
determinant is strictly positive and the stored value is the raw
determinant, never a clamped or default one. -/
theorem claim_C2 {n nG : ℕ} (dN : Fin nG → Fin n → Fin 2 → Q3)
    (e : ElemState n nG) :
    (ComputeGrad_Linear dN e = none ↔
      ∃ g : Fin nG, (det2 (jacobianM e.refCoord (dN g))).toReal ≤ 0) ∧
    (∀ e', ComputeGrad_Linear dN e = some e' → ∀ g : Fin nG,
      0 < (det2 (jacobianM e.refCoord (dN g))).toReal ∧
      e'.GetJ_X g = det2 (jacobianM e.refCoord (dN g))) ∧
    (ComputeGrad_NonLinear dN e = none ↔
      ∃ g : Fin nG, (det2 (jacobianM e.currCoord (dN g))).toReal ≤ 0) ∧
    (∀ e', ComputeGrad_NonLinear dN e = some e' → ∀ g : Fin nG,
      0 < (det2 (jacobianM e.currCoord (dN g))).toReal ∧
      e'.GetJ_X g = det2 (jacobianM e.currCoord (dN g))) := by
  refine ⟨?_, ?_, ?_, ?_⟩
  · rw [show ComputeGrad_Linear dN e = computeGrad dN e.refCoord e from rfl,
      computeGrad_none_iff]
    simp only [Q3.posb_iff, not_lt]
  · intro e' h g
    obtain ⟨hpos, rfl⟩ := computeGrad_some dN e.refCoord e e' h
    exact ⟨(Q3.posb_iff _).mp (hpos g), rfl⟩
  · rw [show ComputeGrad_NonLinear dN e = computeGrad dN e.currCoord e from rfl,
      computeGrad_none_iff]
    simp only [Q3.posb_iff, not_lt]
  · intro e' h g
    obtain ⟨hpos, rfl⟩ := computeGrad_some dN e.currCoord e e' h
    exact ⟨(Q3.posb_iff _).mp (hpos g), rfl⟩

/-- Witness for C2: the collinear triangle `triaDegen` makes
`ComputeGrad_Linear` fail, and on the valid triangle `triaEx` the stored
determinant is the raw one. -/
theorem claim_C2_witness :
    ComputeGrad_Linear tria1_dN triaDegen = none ∧
    triaExOut.GetJ_X 0 = det2 (jacobianM triaEx.refCoord (tria1_dN 0)) := by
  constructor
  · refine (claim_C2 tria1_dN triaDegen).1.mpr ⟨0, ?_⟩
    rw [show det2 (jacobianM triaDegen.refCoord (tria1_dN 0)) = 0 from by
        with_unfolding_all decide,
      Q3.toReal_zero]
  · have h : ComputeGrad_Linear tria1_dN triaEx = some triaExOut := by
      with_unfolding_all rfl
    exact ((claim_C2 tria1_dN triaEx).2.1 triaExOut h 0).2

/-- Claim C3: `ComputeGrad_NonLinear` computes the same function as
`ComputeGrad_Linear` except that it reads the current coordinates, so when
`CurrentCoord` equals `RefCoord` entry-wise the two calls produce the same
result state (hence the same stored gradients and determinants). -/
theorem claim_C3 {n nG : ℕ} (dN : Fin nG → Fin n → Fin 2 → Q3)
    (e : ElemState n nG)
    (h : ∀ (nd : Fin n) (d : Fin 2), e.GetCurr_Coord nd d = e.GetRef_Coord nd d) :
    ComputeGrad_NonLinear dN e = ComputeGrad_Linear dN e := by
  have hc : e.currCoord = e.refCoord := funext fun nd => funext fun d => h nd d
  unfold ComputeGrad_NonLinear ComputeGrad_Linear
  rw [hc]

/-- Witness for C3: `triaExC` carries identical reference and current
coordinates. -/
theorem claim_C3_witness :
    (∀ (nd : Fin 3) (d : Fin 2),
      triaExC.GetCurr_Coord nd d = triaExC.GetRef_Coord nd d) ∧
    ComputeGrad_NonLinear tria1_dN triaExC = ComputeGrad_Linear tria1_dN triaExC :=
  ⟨by with_unfolding_all decide, claim_C3 tria1_dN triaExC (by with_unfolding_all decide)⟩

/-- Counterexample to C4 as stated: from a cleared block store, the single
call `Add_Kab(oneMat, 0, 1)` leaves `Get_Kab(0,1) ≠ transpose (Get_Kab(1,0))`
— already at entry `(0,0)`, where transposition is the identity. -/
theorem claim_C4_counterexample :
    ¬ ((applyKCalls mkTria1.clearElement [KCall.add oneMat 0 1]).Get_Kab 0 1 0 0 =
       (applyKCalls mkTria1.clearElement [KCall.add oneMat 0 1]).Get_Kab 1 0 0 0) := by
  with_unfolding_all decide

/-- Claim C4 (amended): `Add_Kab_T` accumulates the transpose of the
supplied sub-matrix into the `(A, B)` block; and starting from a cleared
store, the `(B, A)` block after the mirrored call sequence (each
`Add_Kab(M, A, B)` replaced by `Add_Kab_T(M, B, A)` and vice versa) is the
transpose of the `(A, B)` block after the original sequence — hence
`Get_Kab(A, B) = transpose (Get_Kab(B, A))` for every sequence that is a
permutation of its own mirror, i.e. in which each contribution is
registered for both orderings. -/
theorem claim_C4 {n nG : ℕ} (e : ElemState n nG) :
    (∀ (M : Mat2) (a b : Fin n) (i j : Fin 2),
      (e.Add_Kab_T M a b).Get_Kab a b i j = e.Get_Kab a b i j + M j i) ∧
    (∀ (s : List (KCall n)) (a b : Fin n) (i j : Fin 2),
      (applyKCalls e.clearElement (s.map KCall.mirror)).Get_Kab b a j i =
      (applyKCalls e.clearElement s).Get_Kab a b i j) ∧
    (∀ (s : List (KCall n)) (a b : Fin n) (i j : Fin 2),
      (s.map KCall.mirror).Perm s →
      (applyKCalls e.clearElement s).Get_Kab a b i j =
      (applyKCalls e.clearElement s).Get_Kab b a j i) := by
  refine ⟨?_, ?_, ?_⟩
  · intro M a b i j
    simp [ElemState.Add_Kab_T, ElemState.Get_Kab]
  · intro s a b i j
    simp only [ElemState.Get_Kab]
    rw [applyKCalls_kab, applyKCalls_kab, List.map_map]
    have hm : ((fun c => KCall.delta c b a j i) ∘ KCall.mirror) =
        fun c => KCall.delta c a b i j :=
      funext fun c => mirror_delta c b a j i
    rw [hm]
    rfl
  · intro s a b i j hp
    simp only [ElemState.Get_Kab]
    rw [applyKCalls_kab, applyKCalls_kab]
    have h1 : (s.map fun c => KCall.delta c b a j i).sum =
        ((s.map KCall.mirror).map fun c => KCall.delta c b a j i).sum :=
      List.Perm.sum_eq ((hp.map fun c => KCall.delta c b a j i).symm)
    rw [h1, List.map_map]
    have hm : ((fun c => KCall.delta c b a j i) ∘ KCall.mirror) =
        fun c => KCall.delta c a b i j :=
      funext fun c => mirror_delta c b a j i
    rw [hm]
    rfl

/-- Witness for C4: the mirror-symmetric sequence
`[Add_Kab(oneMat,0,1), Add_Kab_T(oneMat,1,0)]` yields symmetric blocks. -/
theorem claim_C4_witness :
    (applyKCalls mkTria1.clearElement
      [KCall.add oneMat 0 1, KCall.addT oneMat 1 0]).Get_Kab 0 1 0 0 =
    (applyKCalls mkTria1.clearElement
      [KCall.add oneMat 0 1, KCall.addT oneMat 1 0]).Get_Kab 1 0 0 0 :=
  (claim_C4 mkTria1).2.2 [KCall.add oneMat 0 1, KCall.addT oneMat 1 0] 0 1 0 0
    (List.Perm.swap _ _ _)

/-- Claim C5: the quadrature rule is a fixed constant of the concrete
type: the single `CTRIA1` point sits at the parent centroid with weight
`1/2` (the parent-element area), the four `CQUAD4` points sit at
`(±1/√3, ±1/√3)` — all four sign patterns, `invSqrt3` being the positive
square root of `1/3` — each with weight `1`; and no operation on an
element (coordinate writes, stiffness accumulation, clearing, or a
gradient computation) changes the stored weights or parent coordinates. -/
theorem claim_C5 :
    (∀ g : Fin 1, mkTria1.GetWeight g = ⟨1/2, 0⟩) ∧
    (∀ (g : Fin 1) (d : Fin 2), mkTria1.gaussCoord g d = ⟨1/3, 0⟩) ∧
    (∀ g : Fin 4, mkQuad4.GetWeight g = 1) ∧
    (∀ (g : Fin 4) (d : Fin 2),
      mkQuad4.gaussCoord g d = invSqrt3 ∨ mkQuad4.gaussCoord g d = -invSqrt3) ∧
    (∀ s : Fin 2 → Bool, ∃ g : Fin 4, ∀ d : Fin 2,
      mkQuad4.gaussCoord g d = (if s d then invSqrt3 else -invSqrt3)) ∧
    invSqrt3 * invSqrt3 * 3 = 1 ∧
    invSqrt3.posb = true ∧
    invSqrt3.toReal = (Real.sqrt 3)⁻¹ ∧
    (∀ (n nG : ℕ) (e : ElemState n nG) (v : Q3) (iN : Fin n) (iD : Fin 2),
      (e.SetRef_Coord v iN iD).gaussWeight = e.gaussWeight ∧
      (e.SetRef_Coord v iN iD).gaussCoord = e.gaussCoord ∧
      (e.SetCurr_Coord v iN iD).gaussWeight = e.gaussWeight ∧
      (e.SetCurr_Coord v iN iD).gaussCoord = e.gaussCoord) ∧
    (∀ (n nG : ℕ) (e : ElemState n nG) (M : Mat2) (a b : Fin n),
      (e.Add_Kab M a b).gaussWeight = e.gaussWeight ∧
      (e.Add_Kab M a b).gaussCoord = e.gaussCoord ∧
      (e.Add_Kab_T M a b).gaussWeight = e.gaussWeight ∧
      (e.Add_Kab_T M a b).gaussCoord = e.gaussCoord) ∧
    (∀ (n nG : ℕ) (e : ElemState n nG),
      e.clearElement.gaussWeight = e.gaussWeight ∧
      e.clearElement.gaussCoord = e.gaussCoord) ∧
    (∀ (n nG : ℕ) (dN : Fin nG → Fin n → Fin 2 → Q3)
       (coord : Fin n → Fin 2 → Q3) (e : ElemState n nG),
      ((computeGrad dN coord e).getD e).gaussWeight = e.gaussWeight ∧
      ((computeGrad dN coord e).getD e).gaussCoord = e.gaussCoord) := by
  refine ⟨by with_unfolding_all decide, by with_unfolding_all decide,
    by with_unfolding_all decide, by with_unfolding_all decide,
    by with_unfolding_all decide, by with_unfolding_all decide,
    by with_unfolding_all decide, ?_, fun n nG e v iN iD => ⟨rfl, rfl, rfl, rfl⟩,
    fun n nG e M a b => ⟨rfl, rfl, rfl, rfl⟩, fun n nG e => ⟨rfl, rfl⟩, ?_⟩
  · have h3pos : (0 : ℝ) < Real.sqrt 3 := Real.sqrt_pos.mpr (by norm_num)
    have s3 : Real.sqrt 3 * Real.sqrt 3 = 3 := Real.mul_self_sqrt (by norm_num)
    rw [show invSqrt3.toReal = ((0 : ℚ) : ℝ) + ((1/3 : ℚ) : ℝ) * Real.sqrt 3 from rfl]
    rw [inv_eq_one_div, eq_div_iff (ne_of_gt h3pos)]
    push_cast
    nlinarith
  · intro n nG dN coord e
    unfold computeGrad
    split_ifs <;> exact ⟨rfl, rfl⟩

/-- Claim C6: at every quadrature point of either concrete element the
shape-function values over the nodes sum to `1`, and after any successful
gradient computation (linear or nonlinear) the stored physical-space
gradients summed over the nodes vanish in every dimension. -/
theorem claim_C6 :
    (∀ g : Fin 1, ∑ j : Fin 3, tria1_shape j (tria1_gaussCoord g) = 1) ∧
    (∀ g : Fin 4, ∑ j : Fin 4, quad4_shape j (quad4_gaussCoord g) = 1) ∧
    (∀ e e' : ElemState 3 1, ComputeGrad_Linear tria1_dN e = some e' →
      ∀ (g : Fin 1) (d : Fin 2), ∑ node : Fin 3, e'.GetGradNi_X node g d = 0) ∧
    (∀ e e' : ElemState 3 1, ComputeGrad_NonLinear tria1_dN e = some e' →
      ∀ (g : Fin 1) (d : Fin 2), ∑ node : Fin 3, e'.GetGradNi_X node g d = 0) ∧
    (∀ e e' : ElemState 4 4, ComputeGrad_Linear quad4_dN e = some e' →
      ∀ (g : Fin 4) (d : Fin 2), ∑ node : Fin 4, e'.GetGradNi_X node g d = 0) ∧
    (∀ e e' : ElemState 4 4, ComputeGrad_NonLinear quad4_dN e = some e' →
      ∀ (g : Fin 4) (d : Fin 2), ∑ node : Fin 4, e'.GetGradNi_X node g d = 0) := by
  have hzt : ∀ (g : Fin 1) (d : Fin 2), ∑ node : Fin 3, tria1_dN g node d = 0 := by
    with_unfolding_all decide
  have hzq : ∀ (g : Fin 4) (d : Fin 2), ∑ node : Fin 4, quad4_dN g node d = 0 := by
    with_unfolding_all decide
  refine ⟨by with_unfolding_all decide, by with_unfolding_all decide,
    ?_, ?_, ?_, ?_⟩
  · exact fun e e' h => computeGrad_grad_sum_zero tria1_dN e.refCoord e e' h hzt
  · exact fun e e' h => computeGrad_grad_sum_zero tria1_dN e.currCoord e e' h hzt
  · exact fun e e' h => computeGrad_grad_sum_zero quad4_dN e.refCoord e e' h hzq
  · exact fun e e' h => computeGrad_grad_sum_zero quad4_dN e.currCoord e e' h hzq

/-- Witness for C6: the gradients of the right-isoceles triangle sum to
zero componentwise. -/
theorem claim_C6_witness :
    ComputeGrad_Linear tria1_dN triaEx = some triaExOut ∧
    ∑ node : Fin 3, triaExOut.GetGradNi_X node 0 0 = 0 := by
  have h : ComputeGrad_Linear tria1_dN triaEx = some triaExOut := by
    with_unfolding_all rfl
  exact ⟨h, claim_C6.2.2.1 triaEx triaExOut h 0 0⟩

/-- Claim C7: `clearElement` zeroes every accumulated stiffness block and
leaves everything else readable through the getters unchanged. -/
theorem claim_C7 {n nG : ℕ} (e : ElemState n nG) :
    (∀ (a b : Fin n) (i j : Fin 2), e.clearElement.Get_Kab a b i j = 0) ∧
    (∀ (nd : Fin n) (d : Fin 2),
      e.clearElement.GetRef_Coord nd d = e.GetRef_Coord nd d) ∧
    (∀ (nd : Fin n) (d : Fin 2),
      e.clearElement.GetCurr_Coord nd d = e.GetCurr_Coord nd d) ∧
    (∀ (nd : Fin n) (g : Fin nG) (d : Fin 2),
      e.clearElement.GetGradNi_X nd g d = e.GetGradNi_X nd g d) ∧
    (∀ g : Fin nG, e.clearElement.GetJ_X g = e.GetJ_X g) ∧
    (∀ g : Fin nG, e.clearElement.GetWeight g = e.GetWeight g) ∧
    (∀ (g : Fin nG) (d : Fin 2), e.clearElement.gaussCoord g d = e.gaussCoord g d) :=
  ⟨fun _ _ _ _ => rfl, fun _ _ => rfl, fun _ _ => rfl, fun _ _ _ => rfl,
    fun _ => rfl, fun _ => rfl, fun _ _ => rfl⟩

/-- Claim C8: accumulation is additive and replayable — clearing and then
re-applying the same call sequence reproduces every `Get_Kab` entry of the
original (cleared-store) accumulation. -/
theorem claim_C8 {n nG : ℕ} (e : ElemState n nG) (s : List (KCall n))
    (a b : Fin n) (i j : Fin 2) :
    (applyKCalls (applyKCalls e.clearElement s).clearElement s).Get_Kab a b i j =
    (applyKCalls e.clearElement s).Get_Kab a b i j := by
  simp only [ElemState.Get_Kab]
  rw [applyKCalls_kab, applyKCalls_kab]
  rfl

/-- Claim C9: `GetGradNi_X`, `GetnNodes` and `GetnGaussPoints` are
non-virtual and merely shadowed, so a call through the static type
`CElement` always runs the `CElement` body whatever the dynamic type,
while calls through the concrete static types run the concrete bodies;
by contrast the virtual `ComputeGrad_Linear` dispatches on the dynamic
type even through `CElement`. -/
theorem claim_C9 :
    (∀ D : CppClass, dispatch .celement D .getGradNi_X = .celement) ∧
    (∀ D : CppClass, dispatch .celement D .getnNodes = .celement) ∧
    (∀ D : CppClass, dispatch .celement D .getnGaussPoints = .celement) ∧
    dispatch .ctria1 .ctria1 .getGradNi_X = .ctria1 ∧
    dispatch .ctria1 .ctria1 .getnNodes = .ctria1 ∧
    dispatch .ctria1 .ctria1 .getnGaussPoints = .ctria1 ∧
    dispatch .cquad4 .cquad4 .getGradNi_X = .cquad4 ∧
    dispatch .cquad4 .cquad4 .getnNodes = .cquad4 ∧
    dispatch .cquad4 .cquad4 .getnGaussPoints = .cquad4 ∧
    (∀ D : CppClass, dispatch .celement D .computeGrad_Linear =
      lookupFrom D .computeGrad_Linear) := by
  decide

/-- Claim C10: `CNucleationModel` declares no data members, so any member
function of the base class — in particular the non-virtual
`GetNucleation_Rate` and `GetGrowthRate`, whose `this` is the base
subobject — returns a value independent of the state of the derived
`CClassicalTheory`, hence independent of the `J` and `G` that
`SetNucleation_GrowthRate` computes. -/
theorem claim_C10 :
    (∀ (getter : CNucleationModelState → ℚ)
       (setNG : CClassicalTheoryState → CClassicalTheoryState)
       (s : CClassicalTheoryState),
       getter (setNG s).toCNucleationModelState =
       getter s.toCNucleationModelState) ∧
    (∀ (getter : CNucleationModelState → ℚ) (s : CClassicalTheoryState)
       (newJ newG : ℚ),
       getter ({ s with J := newJ, G := newG }).toCNucleationModelState =
       getter s.toCNucleationModelState) :=
  ⟨fun getter _ _ => congrArg getter (Subsingleton.elim _ _),
   fun getter _ _ _ => congrArg getter (Subsingleton.elim _ _)⟩
